import Mathlib

/-!
Shallow embedding of `main.py` from the repository
`reproducing-herron-et-all-2012`, a Monte-Carlo peer-review simulation.

Scores are modelled as rationals (`ℚ`).  The numpy global random stream is
made explicit: normal-noise samples become function arguments (`ℕ → ℚ`,
one sample per index, or `ℕ → ℕ → ℚ` per round and index), and the seeded
integer stream of `np.random` becomes an explicit generator state that is
threaded through `create_manuscripts`.
-/

namespace Herron

/-- np.clip(a, a_min=1, a_max=10) applied to one entry: values below 1 become 1,
values above 10 become 10. -/
def clip (x : ℚ) : ℚ :=
  min (max x 1) 10

/-- review_manuscripts (main.py lines 26-48): elementwise
`np.clip(manuscripts + imprecision_error + other_error, 1, 10)`.
The two normal samples drawn with `size = len(manuscripts)` are passed in
explicitly as `e1 e2 : ℕ → ℚ` (sample at each index). -/
def review_manuscripts (manuscripts : List ℚ) (e1 e2 : ℕ → ℚ) : List ℚ :=
  (List.zipWith (· + ·)
    (List.zipWith (· + ·) manuscripts ((List.range manuscripts.length).map e1))
    ((List.range manuscripts.length).map e2)).map clip

/-- is_above_threshold (main.py lines 51-68): `manuscripts >= threshold`,
elementwise inclusive comparison producing booleans. -/
def is_above_threshold (manuscripts : List ℚ) (threshold : ℚ) : List Bool :=
  manuscripts.map (fun s => decide (threshold ≤ s))

/-- np.sum(rows, axis=0) / the reduction underlying np.mean(rows, axis=0) for a
non-empty list of equal-length rows: elementwise sum across the rows. -/
def sumAxis0 {α : Type} [Add α] (rows : List (List α)) : List α :=
  match rows with
  | [] => []
  | v :: vs => vs.foldl (List.zipWith (· + ·)) v

/-- get_average_review_scores (main.py lines 71-105):
`np.mean([review_manuscripts(...) for _ in range(number_of_reviews)], axis=0)`.
Noise for round `r` at index `i` is `e1 r i` and `e2 r i`. -/
def get_average_review_scores (manuscripts : List ℚ) (number_of_reviews : ℕ)
    (e1 e2 : ℕ → ℕ → ℚ) : List ℚ :=
  (sumAxis0 ((List.range number_of_reviews).map
      (fun r => review_manuscripts manuscripts (e1 r) (e2 r)))).map
    (fun s => s / (number_of_reviews : ℚ))

/-- is_above_threshold_based_on_average (main.py lines 108-141):
`average_review_scores >= threshold`. -/
def is_above_threshold_based_on_average (manuscripts : List ℚ)
    (number_of_reviews : ℕ) (threshold : ℚ) (e1 e2 : ℕ → ℕ → ℚ) : List Bool :=
  (get_average_review_scores manuscripts number_of_reviews e1 e2).map
    (fun a => decide (threshold ≤ a))

/-- count_votes (main.py lines 144-164):
`np.sum([review >= threshold for review in reviews], axis=0)` — the
elementwise sum (as natural numbers) of the boolean rows. -/
def count_votes (reviews : List (List ℚ)) (threshold : ℚ) : List ℕ :=
  sumAxis0 (reviews.map (fun row => row.map (fun x => if threshold ≤ x then 1 else 0)))

/-- is_above_threshold_based_on_vote (main.py lines 167-204): build one review
batch per round, count votes, then `number_of_votes >= int(number_of_reviews / 2)`
(floor of half the round count). -/
def is_above_threshold_based_on_vote (manuscripts : List ℚ)
    (number_of_reviews : ℕ) (threshold : ℚ) (e1 e2 : ℕ → ℕ → ℚ) : List Bool :=
  let reviews := (List.range number_of_reviews).map
    (fun r => review_manuscripts manuscripts (e1 r) (e2 r))
  (count_votes reviews threshold).map
    (fun v => decide (number_of_reviews / 2 ≤ v))

/-- np.sum(decisions == accurate_decisions): the number of positions where the
two boolean arrays agree. -/
def countMatches (decisions accurate : List Bool) : ℕ :=
  (List.zipWith (fun x y => x == y) decisions accurate).count true

/-- accuracy_of_process (main.py lines 207-250): ground truth from
is_above_threshold on the raw manuscripts, decisions from the given process,
then `np.sum(decisions == accurate_decisions) / len(manuscripts)`.
When the batch is empty the float division is 0/0, which numpy evaluates to
NaN (with a runtime warning, not an exception); ℚ has no NaN, so the result
is `Option ℚ` with `none` standing for that NaN outcome. -/
def accuracy_of_process (manuscripts : List ℚ) (threshold : ℚ)
    (process : List ℚ → ℕ → ℚ → (ℕ → ℕ → ℚ) → (ℕ → ℕ → ℚ) → List Bool)
    (number_of_reviews : ℕ) (e1 e2 : ℕ → ℕ → ℚ) : Option ℚ :=
  let accurate_decisions := is_above_threshold manuscripts threshold
  let decisions := process manuscripts number_of_reviews threshold e1 e2
  if manuscripts.length = 0 then none
  else some ((countMatches decisions accurate_decisions : ℚ) / (manuscripts.length : ℚ))

/-- Number of the first `R` rounds whose noisy review of manuscript `i` meets the
threshold: the per-manuscript vote count of the vote policy, written directly. -/
def countPassing (manuscripts : List ℚ) (number_of_reviews : ℕ) (threshold : ℚ)
    (e1 e2 : ℕ → ℕ → ℚ) (i : ℕ) : ℕ :=
  ((List.range number_of_reviews).filter
    (fun r => decide (threshold ≤ clip (manuscripts.getD i 0 + e1 r i + e2 r i)))).length

/-- State of the numpy global pseudo-random generator: an infinite stream of raw
draws together with the current read position. -/
structure RNGState where
  stream : ℕ → ℕ
  pos : ℕ

/-- np.random.seed(seed) (main.py line 22): with a concrete seed the whole
generator state is re-initialised from that seed (via the family `init` of
seeded streams, kept abstract); with `None` the current state is left as is. -/
def np_random_seed (init : ℕ → ℕ → ℕ) (seed : Option ℕ) (g : RNGState) : RNGState :=
  match seed with
  | some s => ⟨init s, 0⟩
  | none => g

/-- np.random.randint(low=1, high=11, size=n): reads `n` raw draws from the
generator, maps each into 1..10, and advances the position. -/
def randint_1_10 (g : RNGState) (n : ℕ) : List ℕ × RNGState :=
  ((List.range n).map (fun i => 1 + g.stream (g.pos + i) % 10), ⟨g.stream, g.pos + n⟩)

/-- create_manuscripts (main.py lines 7-23): seed the global generator, then
draw `n` integers uniformly in 1..10.  numpy raises
`ValueError: negative dimensions are not allowed` for a negative size and
returns an empty array for size 0. -/
def create_manuscripts (init : ℕ → ℕ → ℕ) (n : ℤ) (seed : Option ℕ)
    (g : RNGState) : Except String (List ℕ × RNGState) :=
  let g1 := np_random_seed init seed g
  if n < 0 then Except.error "ValueError: negative dimensions are not allowed"
  else Except.ok (randint_1_10 g1 n.toNat)

/-- Heap of numpy arrays: finitely many allocated ids below `next`.  Used to
state the frame property of review_manuscripts (no mutation of its input). -/
structure Heap where
  arrays : ℕ → Option (List ℚ)
  next : ℕ

/-- Allocate a fresh array on the heap, returning the new heap and the id. -/
def Heap.alloc (h : Heap) (v : List ℚ) : Heap × ℕ :=
  (⟨fun i => if i = h.next then some v else h.arrays i, h.next + 1⟩, h.next)

/-- review_manuscripts at the heap level (main.py lines 43-48).  Each numpy
expression allocates a fresh array: the two normal samples, the two
elementwise sums `manuscripts + imprecision_error` and `... + other_error`,
and the result of np.clip (called without an `out=` argument).  The input
array is only read. -/
def review_manuscripts_heap (h : Heap) (mId : ℕ) (e1 e2 : ℕ → ℚ) : Heap × ℕ :=
  let m := (h.arrays mId).getD []
  let n := m.length
  let ea := (List.range n).map e1
  let eb := (List.range n).map e2
  let s1 := List.zipWith (· + ·) m ea
  let s2 := List.zipWith (· + ·) s1 eb
  let h1 := (h.alloc ea).1
  let h2 := (h1.alloc eb).1
  let h3 := (h2.alloc s1).1
  let h4 := (h3.alloc s2).1
  (h4.alloc (s2.map clip))

/-! Helper lemmas about the embedded operations. -/

lemma review_manuscripts_length (m : List ℚ) (e1 e2 : ℕ → ℚ) :
    (review_manuscripts m e1 e2).length = m.length := by
  simp [review_manuscripts]

lemma review_manuscripts_getElem {m : List ℚ} {e1 e2 : ℕ → ℚ} {i : ℕ}
    (hi : i < m.length) (hr : i < (review_manuscripts m e1 e2).length) :
    (review_manuscripts m e1 e2)[i] = clip (m[i] + e1 i + e2 i) := by
  simp [review_manuscripts]

lemma review_manuscripts_getD {m : List ℚ} {e1 e2 : ℕ → ℚ} {i : ℕ}
    (hi : i < m.length) :
    (review_manuscripts m e1 e2).getD i 0 = clip (m.getD i 0 + e1 i + e2 i) := by
  have hr : i < (review_manuscripts m e1 e2).length := by
    rw [review_manuscripts_length]; exact hi
  rw [List.getD_eq_getElem _ 0 hr, List.getD_eq_getElem _ 0 hi,
    review_manuscripts_getElem hi hr]

lemma foldl_zipWith_add_length {α : Type} [Add α] {n : ℕ} :
    ∀ (vs : List (List α)) (acc : List α), acc.length = n →
      (∀ r ∈ vs, r.length = n) →
      (vs.foldl (List.zipWith (· + ·)) acc).length = n := by
  intro vs
  induction vs with
  | nil => intro acc hacc _; simpa using hacc
  | cons v vs ih =>
    intro acc hacc hall
    simp only [List.foldl_cons]
    exact ih _ (by simp [List.length_zipWith, hacc, hall v (by simp)])
      (fun r hr => hall r (by simp [hr]))

lemma foldl_zipWith_add_getD {α : Type} [AddMonoid α] {n i : ℕ} (hi : i < n) :
    ∀ (vs : List (List α)) (acc : List α), acc.length = n →
      (∀ r ∈ vs, r.length = n) →
      (vs.foldl (List.zipWith (· + ·)) acc).getD i 0 =
        acc.getD i 0 + (vs.map (fun r => r.getD i 0)).sum := by
  intro vs
  induction vs with
  | nil => intro acc _ _; simp
  | cons v vs ih =>
    intro acc hacc hall
    have hv : v.length = n := hall v (by simp)
    have hzip : (List.zipWith (· + ·) acc v).length = n := by
      simp [List.length_zipWith, hacc, hv]
    have hstep := ih (List.zipWith (· + ·) acc v) hzip
      (fun r hr => hall r (by simp [hr]))
    have hz : (List.zipWith (· + ·) acc v).getD i 0 = acc.getD i 0 + v.getD i 0 := by
      rw [List.getD_eq_getElem _ 0 (by rw [hzip]; exact hi),
        List.getD_eq_getElem _ 0 (by rw [hacc]; exact hi),
        List.getD_eq_getElem _ 0 (by rw [hv]; exact hi), List.getElem_zipWith]
    simp only [List.foldl_cons, hstep, hz, List.map_cons, List.sum_cons, add_assoc]

lemma sumAxis0_length {α : Type} [Add α] {n : ℕ} {rows : List (List α)}
    (hrows : ∀ r ∈ rows, r.length = n) (hne : rows ≠ []) :
    (sumAxis0 rows).length = n := by
  match rows with
  | [] => exact absurd rfl hne
  | v :: vs =>
    exact foldl_zipWith_add_length vs v (hrows v (by simp))
      (fun r hr => hrows r (by simp [hr]))

lemma sumAxis0_getD {α : Type} [AddMonoid α] {n i : ℕ} (hi : i < n)
    {rows : List (List α)} (hrows : ∀ r ∈ rows, r.length = n) (hne : rows ≠ []) :
    (sumAxis0 rows).getD i 0 = (rows.map (fun r => r.getD i 0)).sum := by
  match rows with
  | [] => exact absurd rfl hne
  | v :: vs =>
    have := foldl_zipWith_add_getD hi vs v (hrows v (by simp))
      (fun r hr => hrows r (by simp [hr]))
    simpa [sumAxis0] using this

lemma sum_map_ite {β : Type} (l : List β) (p : β → Prop) [DecidablePred p] :
    (l.map (fun x => if p x then (1 : ℕ) else 0)).sum =
      l.countP (fun x => decide (p x)) := by
  induction l with
  | nil => simp
  | cons a l ih =>
    by_cases h : p a <;> simp [List.countP_cons, h, ih, Nat.add_comm]

lemma count_votes_length {reviews : List (List ℚ)} {t : ℚ} {n : ℕ}
    (hrows : ∀ r ∈ reviews, r.length = n) (hne : reviews ≠ []) :
    (count_votes reviews t).length = n := by
  refine sumAxis0_length (n := n) ?_ (by simpa using hne)
  intro r hr
  obtain ⟨row, hrow, rfl⟩ := List.mem_map.mp hr
  simp [hrows row hrow]

lemma count_votes_getD {reviews : List (List ℚ)} {t : ℚ} {n i : ℕ} (hi : i < n)
    (hrows : ∀ r ∈ reviews, r.length = n) (hne : reviews ≠ []) :
    (count_votes reviews t).getD i 0 =
      reviews.countP (fun row => decide (t ≤ row.getD i 0)) := by
  unfold count_votes
  rw [sumAxis0_getD hi ?_ (by simpa using hne)]
  · rw [List.map_map]
    have hcong : reviews.map ((fun r => r.getD i 0) ∘
          fun row => row.map (fun x => if t ≤ x then 1 else 0)) =
        reviews.map (fun row => if t ≤ row.getD i 0 then (1 : ℕ) else 0) := by
      refine List.map_congr_left ?_
      intro row hrow
      have hlen : i < (row.map (fun x => if t ≤ x then (1 : ℕ) else 0)).length := by
        simp [hrows row hrow, hi]
      simp only [Function.comp]
      rw [List.getD_eq_getElem _ 0 hlen, List.getElem_map,
        List.getD_eq_getElem _ 0 (by rw [hrows row hrow]; exact hi)]
    rw [hcong, sum_map_ite]
  · intro r hr
    obtain ⟨row, hrow, rfl⟩ := List.mem_map.mp hr
    simp [hrows row hrow]

lemma vote_reviews_spec (m : List ℚ) (R : ℕ) (e1 e2 : ℕ → ℕ → ℚ) :
    ∀ r ∈ (List.range R).map (fun r => review_manuscripts m (e1 r) (e2 r)),
      r.length = m.length := by
  intro r hr
  obtain ⟨j, _, rfl⟩ := List.mem_map.mp hr
  exact review_manuscripts_length m (e1 j) (e2 j)

lemma vote_length (m : List ℚ) (R : ℕ) (t : ℚ) (e1 e2 : ℕ → ℕ → ℚ)
    (hR : 0 < R) :
    (is_above_threshold_based_on_vote m R t e1 e2).length = m.length := by
  unfold is_above_threshold_based_on_vote
  rw [List.length_map]
  exact count_votes_length (vote_reviews_spec m R e1 e2)
    (by simp [List.range_eq_nil]; omega)

lemma vote_getD (m : List ℚ) (R : ℕ) (t : ℚ) (e1 e2 : ℕ → ℕ → ℚ) (i : ℕ)
    (hR : 0 < R) (hi : i < m.length) :
    (is_above_threshold_based_on_vote m R t e1 e2).getD i false =
      decide (R / 2 ≤ countPassing m R t e1 e2 i) := by
  unfold is_above_threshold_based_on_vote
  have hne : (List.range R).map (fun r => review_manuscripts m (e1 r) (e2 r)) ≠ [] := by
    simp [List.range_eq_nil]; omega
  have hcv : (count_votes ((List.range R).map
      (fun r => review_manuscripts m (e1 r) (e2 r))) t).length = m.length :=
    count_votes_length (vote_reviews_spec m R e1 e2) hne
  have hlt : i < (count_votes ((List.range R).map
      (fun r => review_manuscripts m (e1 r) (e2 r))) t).length := by
    rw [hcv]; exact hi
  have hmap : i < ((count_votes ((List.range R).map
      (fun r => review_manuscripts m (e1 r) (e2 r))) t).map
      (fun v => decide (R / 2 ≤ v))).length := by
    rw [List.length_map]; exact hlt
  rw [List.getD_eq_getElem _ false hmap, List.getElem_map,
    ← List.getD_eq_getElem _ 0 hlt,
    count_votes_getD hi (vote_reviews_spec m R e1 e2) hne]
  have hcnt : ((List.range R).map
        (fun r => review_manuscripts m (e1 r) (e2 r))).countP
        (fun row => decide (t ≤ row.getD i 0)) =
      countPassing m R t e1 e2 i := by
    rw [List.countP_map]
    unfold countPassing
    rw [← List.countP_eq_length_filter]
    refine List.countP_congr ?_
    intro r _
    simp only [Function.comp, review_manuscripts_getD hi, decide_eq_true_eq]
  rw [hcnt]

lemma clip_of_mem_range {x : ℚ} (h1 : 1 ≤ x) (h2 : x ≤ 10) : clip x = x := by
  unfold clip
  rw [max_eq_left h1, min_eq_left h2]

lemma review_manuscripts_zero {m : List ℚ} {e1 e2 : ℕ → ℚ}
    (h1 : ∀ i, e1 i = 0) (h2 : ∀ i, e2 i = 0)
    (hm : ∀ x ∈ m, 1 ≤ x ∧ x ≤ 10) :
    review_manuscripts m e1 e2 = m := by
  refine List.ext_getElem (review_manuscripts_length m e1 e2) ?_
  intro i hr hi
  rw [review_manuscripts_getElem hi hr, h1 i, h2 i, add_zero, add_zero]
  exact clip_of_mem_range (hm _ (List.getElem_mem hi)).1 (hm _ (List.getElem_mem hi)).2

lemma zero_noise_reviews {m : List ℚ} {e1 e2 : ℕ → ℕ → ℚ} {R : ℕ}
    (h1 : ∀ r i, e1 r i = 0) (h2 : ∀ r i, e2 r i = 0)
    (hm : ∀ x ∈ m, 1 ≤ x ∧ x ≤ 10) :
    (List.range R).map (fun r => review_manuscripts m (e1 r) (e2 r)) =
      List.replicate R m := by
  have hc : (List.range R).map (fun r => review_manuscripts m (e1 r) (e2 r)) =
      (List.range R).map (fun _ => m) :=
    List.map_congr_left (fun r _ => review_manuscripts_zero (h1 r) (h2 r) hm)
  rw [hc, List.map_const', List.length_range]

lemma get_average_review_scores_zero {m : List ℚ} {e1 e2 : ℕ → ℕ → ℚ} {R : ℕ}
    (hR : 0 < R) (h1 : ∀ r i, e1 r i = 0) (h2 : ∀ r i, e2 r i = 0)
    (hm : ∀ x ∈ m, 1 ≤ x ∧ x ≤ 10) :
    get_average_review_scores m R e1 e2 = m := by
  unfold get_average_review_scores
  rw [zero_noise_reviews h1 h2 hm]
  have hrows : ∀ r ∈ List.replicate R m, r.length = m.length := by
    intro r hr
    rw [List.eq_of_mem_replicate hr]
  have hne : List.replicate R m ≠ [] := by
    simp [List.replicate_eq_nil_iff]
    omega
  have hlen : (sumAxis0 (List.replicate R m)).length = m.length :=
    sumAxis0_length hrows hne
  refine List.ext_getElem (by rw [List.length_map, hlen]) ?_
  intro i hmap hi
  have hsum : i < (sumAxis0 (List.replicate R m)).length := by rw [hlen]; exact hi
  rw [List.getElem_map, ← List.getD_eq_getElem _ 0 hsum,
    sumAxis0_getD hi hrows hne]
  have hrep : (List.replicate R m).map (fun r => r.getD i 0) =
      List.replicate R (m.getD i 0) := by
    rw [List.map_replicate]
  rw [hrep, List.sum_replicate, nsmul_eq_mul, List.getD_eq_getElem _ 0 hi]
  field_simp

lemma countPassing_zero {m : List ℚ} {e1 e2 : ℕ → ℕ → ℚ} {R i : ℕ} {t : ℚ}
    (h1 : ∀ r i, e1 r i = 0) (h2 : ∀ r i, e2 r i = 0) (hi : i < m.length)
    (hm : ∀ x ∈ m, 1 ≤ x ∧ x ≤ 10) :
    countPassing m R t e1 e2 i = if t ≤ m.getD i 0 then R else 0 := by
  unfold countPassing
  have hx : ∀ x ∈ m, clip x = x := fun x hx =>
    clip_of_mem_range (hm x hx).1 (hm x hx).2
  have hclip : clip (m.getD i 0) = m.getD i 0 := by
    refine hx _ ?_
    rw [List.getD_eq_getElem _ 0 hi]
    exact List.getElem_mem hi
  have hcong : (List.range R).filter
        (fun r => decide (t ≤ clip (m.getD i 0 + e1 r i + e2 r i))) =
      (List.range R).filter (fun _ => decide (t ≤ m.getD i 0)) := by
    refine List.filter_congr ?_
    intro r _
    rw [h1 r i, h2 r i, add_zero, add_zero, hclip]
  rw [hcong]
  by_cases ht : t ≤ m.getD i 0
  · rw [if_pos ht]
    have hfun : (fun _ : ℕ => decide (t ≤ m.getD i 0)) = (fun _ : ℕ => true) := by
      funext r
      exact decide_eq_true ht
    rw [hfun, List.filter_true, List.length_range]
  · rw [if_neg ht]
    have hfun : (fun _ : ℕ => decide (t ≤ m.getD i 0)) = (fun _ : ℕ => false) := by
      funext r
      exact decide_eq_false ht
    rw [hfun, List.filter_false, List.length_nil]

lemma countMatches_self (l : List Bool) : countMatches l l = l.length := by
  induction l with
  | nil => rfl
  | cons a l ih =>
    simp [countMatches, List.count_cons] at ih ⊢

lemma countMatches_le {a b : List Bool} : countMatches a b ≤ b.length := by
  unfold countMatches
  calc (List.zipWith (fun x y => x == y) a b).count true
      ≤ (List.zipWith (fun x y => x == y) a b).length := List.count_le_length _ _
    _ ≤ b.length := by rw [List.length_zipWith]; exact min_le_right _ _

lemma accuracy_eq_one {m : List ℚ} {t : ℚ}
    {process : List ℚ → ℕ → ℚ → (ℕ → ℕ → ℚ) → (ℕ → ℕ → ℚ) → List Bool}
    {R : ℕ} {e1 e2 : ℕ → ℕ → ℚ} (hne : m ≠ [])
    (hdec : process m R t e1 e2 = is_above_threshold m t) :
    accuracy_of_process m t process R e1 e2 = some 1 := by
  unfold accuracy_of_process
  have hlen : m.length ≠ 0 := by
    simpa [List.length_eq_zero] using hne
  rw [if_neg hlen, hdec, countMatches_self]
  have : (is_above_threshold m t).length = m.length := by
    unfold is_above_threshold
    rw [List.length_map]
  rw [this]
  congr 1
  rw [div_self (by exact_mod_cast hlen)]

lemma is_above_threshold_length (m : List ℚ) (t : ℚ) :
    (is_above_threshold m t).length = m.length := by
  unfold is_above_threshold
  rw [List.length_map]

lemma Heap.alloc_next (h : Heap) (v : List ℚ) : ((h.alloc v).1).next = h.next + 1 :=
  rfl

lemma alloc_arrays (h : Heap) (v : List ℚ) (i : ℕ) :
    ((h.alloc v).1).arrays i = if i = h.next then some v else h.arrays i :=
  rfl

lemma alloc_snd (h : Heap) (v : List ℚ) : (h.alloc v).2 = h.next :=
  rfl

/-! Theorems for the claims. -/

/-- Claim C1: for every manuscript batch, threshold, noise and positive round
count R, the vote policy accepts manuscript i iff the number of the R rounds
whose noisy review at position i meets the threshold is at least floor (R / 2);
in particular for R = 4 a manuscript with exactly 2 passing rounds is
accepted. -/
theorem vote_policy_majority_rule (m : List ℚ) (R : ℕ) (t : ℚ)
    (e1 e2 : ℕ → ℕ → ℚ) (i : ℕ) (hR : 0 < R) (hi : i < m.length) :
    ((is_above_threshold_based_on_vote m R t e1 e2).getD i false = true ↔
      R / 2 ≤ countPassing m R t e1 e2 i)
    ∧ (R = 4 → countPassing m R t e1 e2 i = 2 →
        (is_above_threshold_based_on_vote m R t e1 e2).getD i false = true) := by
  have h := vote_getD m R t e1 e2 i hR hi
  constructor
  · rw [h, decide_eq_true_eq]
  · intro h4 h2
    subst h4
    rw [h, h2]
    decide

/-- Witness for C1 at a concrete input: R = 4 rounds, one manuscript of true
score 8, threshold 7, noise making exactly rounds 0 and 1 pass: accepted. -/
theorem vote_policy_majority_rule_witness :
    (is_above_threshold_based_on_vote [(8 : ℚ)] 4 7
      (fun r _ => if r < 2 then 0 else -7) (fun _ _ => 0)).getD 0 false = true := by
  have h := vote_policy_majority_rule [(8 : ℚ)] 4 7
    (fun r _ => if r < 2 then 0 else -7) (fun _ _ => 0) 0 (by decide) (by decide)
  refine h.2 rfl ?_
  norm_num [countPassing, clip, List.range_succ, List.filter]

/-- Claim C3, corrected.  For odd R the vote rule accepts iff the vote count is
at least (R - 1) / 2, i.e. iff R ≤ 2 * votes + 1.  A strict majority is
sufficient for acceptance but not necessary: the rule is one vote weaker than
a true-majority rule. -/
theorem vote_policy_odd_rounds (m : List ℚ) (R : ℕ) (t : ℚ)
    (e1 e2 : ℕ → ℕ → ℚ) (i : ℕ) (hodd : Odd R) (hi : i < m.length) :
    ((is_above_threshold_based_on_vote m R t e1 e2).getD i false = true ↔
      R ≤ 2 * countPassing m R t e1 e2 i + 1)
    ∧ (R < 2 * countPassing m R t e1 e2 i →
        (is_above_threshold_based_on_vote m R t e1 e2).getD i false = true) := by
  obtain ⟨k, hk⟩ := hodd
  have hR : 0 < R := by omega
  have h := vote_getD m R t e1 e2 i hR hi
  constructor
  · rw [h, decide_eq_true_eq]
    omega
  · intro hmaj
    rw [h, decide_eq_true_eq]
    omega

/-- Witness for C3 (amended form) at R = 3, one manuscript, threshold 7. -/
theorem vote_policy_odd_rounds_witness :
    (is_above_threshold_based_on_vote [(10 : ℚ)] 3 7
        (fun r _ => if r = 0 then 0 else -9) (fun _ _ => 0)).getD 0 false = true ↔
      3 ≤ 2 * countPassing [(10 : ℚ)] 3 7
        (fun r _ => if r = 0 then 0 else -9) (fun _ _ => 0) 0 + 1 :=
  (vote_policy_odd_rounds [(10 : ℚ)] 3 7
    (fun r _ => if r = 0 then 0 else -9) (fun _ _ => 0) 0
    ⟨1, by decide⟩ (by decide)).1

/-- Counterexample to C3 as stated: with 3 rounds, threshold 7 and noise making
only round 0 pass, the single manuscript gets 1 vote of 3 — not strictly more
than half — yet the vote policy accepts it. -/
theorem vote_policy_odd_rounds_cex :
    countPassing [(10 : ℚ)] 3 7
        (fun r _ => if r = 0 then 0 else -9) (fun _ _ => 0) 0 = 1
    ∧ (is_above_threshold_based_on_vote [(10 : ℚ)] 3 7
        (fun r _ => if r = 0 then 0 else -9) (fun _ _ => 0)).getD 0 false = true
    ∧ ¬ (3 < 2 * 1) := by
  refine ⟨?_, ?_, by decide⟩
  · norm_num [countPassing, clip, List.range_succ, List.filter]
  · norm_num [is_above_threshold_based_on_vote, count_votes, sumAxis0,
      review_manuscripts, clip, List.range_succ]

/-- Claim C6: every value produced by review_manuscripts lies in [1, 10]
whatever the noise is, and the output has the length of the input batch. -/
theorem review_manuscripts_clipping (m : List ℚ) (e1 e2 : ℕ → ℚ) :
    (review_manuscripts m e1 e2).length = m.length
    ∧ ∀ x ∈ review_manuscripts m e1 e2, 1 ≤ x ∧ x ≤ 10 := by
  refine ⟨review_manuscripts_length m e1 e2, ?_⟩
  intro x hx
  unfold review_manuscripts at hx
  obtain ⟨y, hy, rfl⟩ := List.mem_map.mp hx
  unfold clip
  exact ⟨le_min (le_max_right _ _) (by norm_num), min_le_right _ _⟩

/-- Witness for C6: a batch containing 0 and 20 (noise zero) is clipped into
the range, with output length 2. -/
theorem review_manuscripts_clipping_witness :
    (review_manuscripts [(0 : ℚ), 20] (fun _ => 0) (fun _ => 0)).length = 2
    ∧ (1 ≤ (1 : ℚ) ∧ (1 : ℚ) ≤ 10) := by
  have hval : review_manuscripts [(0 : ℚ), 20] (fun _ => 0) (fun _ => 0) = [1, 10] := by
    norm_num [review_manuscripts, clip, List.replicate]
  constructor
  · exact ((review_manuscripts_clipping [(0 : ℚ), 20]
      (fun _ => 0) (fun _ => 0)).1).trans (by decide)
  · refine (review_manuscripts_clipping [(0 : ℚ), 20]
      (fun _ => 0) (fun _ => 0)).2 1 ?_
    rw [hval]
    simp

/-- Claim C7: is_above_threshold returns a boolean list of the same length,
whose entry i is true iff score i is at least the threshold (inclusive). -/
theorem is_above_threshold_spec (scores : List ℚ) (t : ℚ) :
    (is_above_threshold scores t).length = scores.length
    ∧ ∀ i : ℕ, i < scores.length →
        ((is_above_threshold scores t).getD i false = true ↔
          t ≤ scores.getD i 0) := by
  refine ⟨is_above_threshold_length scores t, ?_⟩
  intro i hi
  have hlt : i < (is_above_threshold scores t).length := by
    rw [is_above_threshold_length]
    exact hi
  rw [List.getD_eq_getElem _ false hlt, List.getD_eq_getElem _ 0 hi]
  unfold is_above_threshold
  simp

/-- Witness for C7 at scores [3, 9], threshold 5, position 1. -/
theorem is_above_threshold_spec_witness :
    (is_above_threshold [(3 : ℚ), 9] 5).getD 1 false = true ↔
      (5 : ℚ) ≤ ([(3 : ℚ), 9].getD 1 0) :=
  (is_above_threshold_spec [(3 : ℚ), 9] 5).2 1 (by decide)

/-- Claim C9: count_votes on the five review rounds of the spec scenario with
threshold 7 yields the per-manuscript vote counts [4, 3, 2]. -/
theorem count_votes_example :
    count_votes [[1, 5, 8], [8, 8, 8], [10, 9, 1], [10, 1, 2], [9, 9, 5]] 7 =
      [4, 3, 2] := by
  norm_num [count_votes, sumAxis0]

/-- Claim C2, corrected.  With zero noise and a non-empty batch of in-range
manuscripts, the average policy has accuracy exactly 1 for every R ≥ 1, and the
vote policy has accuracy exactly 1 for every R ≥ 2 (for R = 1 the vote
threshold floor (1 / 2) = 0 makes it accept everything). -/
theorem accuracy_zero_noise_exact (m : List ℚ) (t : ℚ) (R : ℕ)
    (e1 e2 : ℕ → ℕ → ℚ) (hne : m ≠ []) (hm : ∀ x ∈ m, 1 ≤ x ∧ x ≤ 10)
    (h1 : ∀ r i, e1 r i = 0) (h2 : ∀ r i, e2 r i = 0) (hR : 0 < R) :
    accuracy_of_process m t is_above_threshold_based_on_average R e1 e2 = some 1
    ∧ (2 ≤ R →
        accuracy_of_process m t is_above_threshold_based_on_vote R e1 e2 = some 1) := by
  constructor
  · refine accuracy_eq_one hne ?_
    unfold is_above_threshold_based_on_average
    rw [get_average_review_scores_zero hR h1 h2 hm]
    rfl
  · intro hR2
    refine accuracy_eq_one hne ?_
    refine List.ext_getElem ?_ ?_
    · rw [vote_length m R t e1 e2 hR, is_above_threshold_length]
    · intro i hv hi2
      have him : i < m.length := by
        rw [← vote_length m R t e1 e2 hR]
        exact hv
      rw [← List.getD_eq_getElem _ false hv,
        vote_getD m R t e1 e2 i hR him, countPassing_zero h1 h2 him hm,
        List.getD_eq_getElem _ 0 him]
      simp only [is_above_threshold, List.getElem_map]
      by_cases ht : t ≤ m[i]
      · rw [if_pos ht, decide_eq_true ht]
        exact decide_eq_true (Nat.div_le_self R 2)
      · rw [if_neg ht, decide_eq_false ht]
        refine decide_eq_false ?_
        omega

/-- Witness for C2 (amended form): one manuscript of score 5, threshold 3,
R = 2 rounds, zero noise: both policies have accuracy 1. -/
theorem accuracy_zero_noise_exact_witness :
    accuracy_of_process [(5 : ℚ)] 3 is_above_threshold_based_on_average 2
      (fun _ _ => 0) (fun _ _ => 0) = some 1
    ∧ (2 ≤ 2 →
        accuracy_of_process [(5 : ℚ)] 3 is_above_threshold_based_on_vote 2
          (fun _ _ => 0) (fun _ _ => 0) = some 1) :=
  accuracy_zero_noise_exact [(5 : ℚ)] 3 2 (fun _ _ => 0) (fun _ _ => 0)
    (by decide) (by norm_num) (fun _ _ => rfl) (fun _ _ => rfl) (by decide)

/-- Counterexample to C2 as stated: with zero noise, one manuscript of score 1,
threshold 10 and R = 1 review round, the vote policy accepts the manuscript
(vote threshold floor (1 / 2) = 0) while ground truth rejects it, so the
accuracy is 0, not 1. -/
theorem accuracy_zero_noise_cex :
    accuracy_of_process [(1 : ℚ)] 10 is_above_threshold_based_on_vote 1
      (fun _ _ => 0) (fun _ _ => 0) = some 0
    ∧ some (0 : ℚ) ≠ some (1 : ℚ) := by
  constructor
  · norm_num [accuracy_of_process, is_above_threshold_based_on_vote,
      is_above_threshold, count_votes, sumAxis0, review_manuscripts, clip,
      countMatches, List.range_succ]
  · norm_num

/-- Claim C4: on the empty batch accuracy_of_process hits the 0 / 0 division
and yields the NaN outcome (modelled as `none`) instead of raising an
InvalidArgument error; on any non-empty batch the accuracy is a rational in
[0, 1] for both policies (indeed for any process). -/
theorem accuracy_empty_nan_and_unit_range :
    (∀ (t : ℚ) (R : ℕ) (e1 e2 : ℕ → ℕ → ℚ)
        (process : List ℚ → ℕ → ℚ → (ℕ → ℕ → ℚ) → (ℕ → ℕ → ℚ) → List Bool),
      accuracy_of_process [] t process R e1 e2 = none)
    ∧ ∀ (m : List ℚ) (t : ℚ) (R : ℕ) (e1 e2 : ℕ → ℕ → ℚ)
        (process : List ℚ → ℕ → ℚ → (ℕ → ℕ → ℚ) → (ℕ → ℕ → ℚ) → List Bool),
      m = [] ∨
        ∃ q, accuracy_of_process m t process R e1 e2 = some q ∧ 0 ≤ q ∧ q ≤ 1 := by
  constructor
  · intro t R e1 e2 process
    rfl
  · intro m t R e1 e2 process
    match m with
    | [] => exact Or.inl rfl
    | a :: l =>
      right
      have hlen : (a :: l).length ≠ 0 := by simp
      have hpos : (0 : ℚ) < ((a :: l).length : ℚ) := by
        have hp : 0 < (a :: l).length := Nat.succ_pos _
        exact_mod_cast hp
      refine ⟨(countMatches (process (a :: l) R t e1 e2)
          (is_above_threshold (a :: l) t) : ℚ) / ((a :: l).length : ℚ), ?_, ?_, ?_⟩
      · unfold accuracy_of_process
        rw [if_neg hlen]
      · positivity
      · rw [div_le_one hpos]
        have hle := countMatches_le (a := process (a :: l) R t e1 e2)
          (b := is_above_threshold (a :: l) t)
        rw [is_above_threshold_length] at hle
        exact_mod_cast hle

/-- Claim C5: the code accepts a size of 0 (returning an empty batch) instead
of failing, while a negative size does raise numpy's ValueError. -/
theorem create_manuscripts_zero_and_negative (init : ℕ → ℕ → ℕ) (s : ℕ)
    (g : RNGState) :
    create_manuscripts init 0 (some s) g = Except.ok ([], ⟨init s, 0⟩)
    ∧ create_manuscripts init (-1) (some s) g =
        Except.error "ValueError: negative dimensions are not allowed" := by
  constructor <;> rfl

/-- Claim C8: with a concrete seed, create_manuscripts does not depend on the
prior state of the global generator — any two calls with the same size and
seed return the same result — and for size k it returns k values. -/
theorem create_manuscripts_seeded_deterministic (init : ℕ → ℕ → ℕ) (n : ℤ)
    (s : ℕ) (g gAlt : RNGState) :
    create_manuscripts init n (some s) g = create_manuscripts init n (some s) gAlt
    ∧ ∀ k : ℕ, ∃ vals gOut,
        create_manuscripts init (k : ℤ) (some s) g = Except.ok (vals, gOut)
        ∧ vals.length = k := by
  constructor
  · rfl
  · intro k
    refine ⟨(List.range k).map (fun i => 1 + init s (0 + i) % 10),
      ⟨init s, 0 + k⟩, ?_, ?_⟩
    · unfold create_manuscripts np_random_seed randint_1_10
      rw [if_neg (not_lt.mpr (Int.natCast_nonneg k))]
      rw [Int.toNat_natCast]
    · rw [List.length_map, List.length_range]

/-- Claim C10: review_manuscripts never mutates its input.  At the heap level
every numpy expression in the body allocates a fresh array, so after the call
the input array still holds its original value, and the result is a fresh
array (with a different id) holding the reviews. -/
theorem review_manuscripts_heap_no_mutation (h : Heap) (mId : ℕ) (m : List ℚ)
    (e1 e2 : ℕ → ℚ) (hm : h.arrays mId = some m) (hv : mId < h.next) :
    ((review_manuscripts_heap h mId e1 e2).1).arrays mId = some m
    ∧ (review_manuscripts_heap h mId e1 e2).2 ≠ mId
    ∧ ((review_manuscripts_heap h mId e1 e2).1).arrays
        ((review_manuscripts_heap h mId e1 e2).2) =
      some (review_manuscripts m e1 e2) := by
  unfold review_manuscripts_heap
  rw [hm]
  simp only [Option.getD_some, alloc_arrays, alloc_snd, Heap.alloc_next]
  refine ⟨?_, ?_, ?_⟩
  · rw [if_neg (by omega), if_neg (by omega), if_neg (by omega),
      if_neg (by omega), if_neg (by omega)]
    exact hm
  · omega
  · simp only [if_true]
    rfl

/-- Witness for C10 at a one-array heap holding the batch [3]. -/
theorem review_manuscripts_heap_no_mutation_witness :
    ((review_manuscripts_heap ⟨fun i => if i = 0 then some [(3 : ℚ)] else none, 1⟩
        0 (fun _ => 0) (fun _ => 0)).1).arrays 0 = some [(3 : ℚ)]
    ∧ (review_manuscripts_heap ⟨fun i => if i = 0 then some [(3 : ℚ)] else none, 1⟩
        0 (fun _ => 0) (fun _ => 0)).2 ≠ 0
    ∧ ((review_manuscripts_heap ⟨fun i => if i = 0 then some [(3 : ℚ)] else none, 1⟩
        0 (fun _ => 0) (fun _ => 0)).1).arrays
        ((review_manuscripts_heap ⟨fun i => if i = 0 then some [(3 : ℚ)] else none, 1⟩
          0 (fun _ => 0) (fun _ => 0)).2) =
      some (review_manuscripts [(3 : ℚ)] (fun _ => 0) (fun _ => 0)) :=
  review_manuscripts_heap_no_mutation
    ⟨fun i => if i = 0 then some [(3 : ℚ)] else none, 1⟩ 0 [(3 : ℚ)]
    (fun _ => 0) (fun _ => 0) rfl (by decide)

end Herron
